import Mathlib

/-!
Verification development for the consumption-saving model with endogenous
labor supply on the intensive margin (HARK, ConsLaborModel.py).

The development shallowly embeds the one-period EGM solver
`solveConsLaborIntMarg` and the terminal-period solver
`updateSolutionTerminal` over the real numbers.  Arrays of the source
(shape aXtraCount x TranShkCount) become functions of two `Fin` indices;
each in-place numpy update becomes a separate named stage.  Fallible code
(the configuration guards, including the guard that terminates the process)
is modelled by an `Option` result: `none` means the call produced no
solution for the period.

The interpolation primitives (`LinearInterp`, `LinearInterpOnInterp1D`,
`VariableLowerBoundFunc2D`, `BilinearInterp`, `ConstantFunction`), the
scalar CRRA utility kernels (`CRRAutilityP`, `CRRAutilityP_inv`) and the
marginal-value wrappers (`MargValueFunc`, `MargValueFunc2D`) live in
modules of this repository that are not among its staged source files
(HARK/utilities.py, HARK/interpolation.py, HARK/ConsumptionSaving
companion modules); they are modelled from the specification's collaborator
contracts, each with a doc comment saying so.
-/

noncomputable section

namespace ConsLabor

/-- Modelled from the spec: CRRA marginal utility, the forward transform of
the scalar utility kernels of HARK/utilities.py (not a staged source file):
`CRRAutilityP(c, gam) = c ** (-gam)`. -/
def CRRAutilityP (c gam : ℝ) : ℝ := c ^ (-gam)

/-- Modelled from the spec: inverse CRRA marginal utility of
HARK/utilities.py (not a staged source file):
`CRRAutilityP_inv(u, gam) = u ** (-1/gam)`. -/
def CRRAutilityP_inv (u gam : ℝ) : ℝ := u ^ (-1 / gam)

/-- One linear segment through `(x0, y0)` and `(x1, y1)`, evaluated at `x`. -/
def linInterpSeg (x0 y0 x1 y1 x : ℝ) : ℝ := y0 + (x - x0) * ((y1 - y0) / (x1 - x0))

/-- Modelled from the spec: `LinearInterp(xs, ys)` of HARK/interpolation.py
(not a staged source file) -- piecewise-linear interpolation over an ordered
grid given as a list of `(x, y)` nodes, with extrapolation by nearest-slope
extension on both sides. -/
def LinearInterp : List (ℝ × ℝ) → ℝ → ℝ
  | [], _ => 0
  | [p], _ => p.2
  | [p0, p1], x => linInterpSeg p0.1 p0.2 p1.1 p1.2 x
  | p0 :: p1 :: p2 :: rest, x =>
      if x ≤ p1.1 then linInterpSeg p0.1 p0.2 p1.1 p1.2 x
      else LinearInterp (p1 :: p2 :: rest) x

/-- Modelled from the spec: `LinearInterpOnInterp1D(fs, grid)` of
HARK/interpolation.py (not a staged source file) -- a 2D function built by
linear interpolation across the secondary grid, using the supplied 1D
functions as cross-sections; nearest-slope extension beyond the secondary
grid. The nodes are given as a list of `(grid value, cross-section)`. -/
def LinearInterpOnInterp1D : List (ℝ × (ℝ → ℝ)) → ℝ → ℝ → ℝ
  | [], _, _ => 0
  | [p], x, _ => p.2 x
  | [p0, p1], x, y => linInterpSeg p0.1 (p0.2 x) p1.1 (p1.2 x) y
  | p0 :: p1 :: p2 :: rest, x, y =>
      if y ≤ p1.1 then linInterpSeg p0.1 (p0.2 x) p1.1 (p1.2 x) y
      else LinearInterpOnInterp1D (p1 :: p2 :: rest) x y

/-- Modelled from the spec: `VariableLowerBoundFunc2D(f, boundFn)` of
HARK/interpolation.py (not a staged source file).  The wrapped base
interpolants are built over grids shifted to start at 0 (spec section 4.2
step 9), so the wrapper evaluates the base at the query shifted down by the
state-dependent lower bound; queries below `boundFn(second argument)` are
outside the valid domain and are never relied upon by the theorems below. -/
def VariableLowerBoundFunc2D (f : ℝ → ℝ → ℝ) (lb : ℝ → ℝ) : ℝ → ℝ → ℝ :=
  fun x y => f (x - lb y) y

/-- Modelled from the spec: `MargValueFunc(cFunc, CRRA)` of
ConsIndShockModel.py (not a staged source file) -- composes a pseudo-inverse
marginal value function with forward CRRA marginal utility. -/
def MargValueFunc (cF : ℝ → ℝ) (gam : ℝ) : ℝ → ℝ := fun x => CRRAutilityP (cF x) gam

/-- Modelled from the spec: `MargValueFunc2D(cFunc, CRRA)` of
ConsGenIncProcessModel.py (not a staged source file) -- the 2D version of
the forward CRRA marginal-utility transform of a pseudo-inverse. -/
def MargValueFunc2D (cF : ℝ → ℝ → ℝ) (gam : ℝ) : ℝ → ℝ → ℝ :=
  fun x y => CRRAutilityP (cF x y) gam

/-- Modelled from the spec: `ConstantFunction(v)` of HARK/interpolation.py
(not a staged source file) -- ignores its input and returns `v`. -/
def ConstantFunction (v : ℝ) : ℝ → ℝ := fun _ => v

/-- Modelled from the spec: `BilinearInterp(z, xs, ys)` of
HARK/interpolation.py (not a staged source file) -- piecewise-bilinear
interpolation over a rectangular node grid, realised by stacking the 1D
interpolants of the columns across the secondary grid. -/
def BilinearInterp {nx ny : ℕ} (z : Fin nx → Fin ny → ℝ) (xg : Fin nx → ℝ)
    (yg : Fin ny → ℝ) : ℝ → ℝ → ℝ :=
  LinearInterpOnInterp1D (List.ofFn fun j => (yg j, LinearInterp (List.ofFn fun i => (xg i, z i j))))

/-- Prepend one row to a two-index array, as `np.concatenate(axis=0)` with a
single extra row does. -/
def consRow {n m : ℕ} (r : Fin m → ℝ) (A : Fin n → Fin m → ℝ) :
    Fin (n + 1) → Fin m → ℝ
  | ⟨0, _⟩, j => r j
  | ⟨i + 1, h⟩, j => A ⟨i, Nat.lt_of_succ_lt_succ h⟩ j

/-- Prepend one value to a grid, as `np.insert(grid, 0, v)` does. -/
def consGrid {n : ℕ} (v : ℝ) (g : Fin n → ℝ) : Fin (n + 1) → ℝ
  | ⟨0, _⟩ => v
  | ⟨i + 1, h⟩ => g ⟨i, Nat.lt_of_succ_lt_succ h⟩

/-- One period of the solution to the consumer labor problem: the four
function handles the solvers construct (ConsLaborModel.py lines 34-70).
The optional value function of the source record is never produced by the
one-period solver and never read by it, so it is not modelled. -/
structure ConsumerLaborSolution where
  cFunc : ℝ → ℝ → ℝ
  LbrFunc : ℝ → ℝ → ℝ
  vPfunc : ℝ → ℝ → ℝ
  bNrmMin : ℝ → ℝ

/-- The inputs of `solveConsLaborIntMarg` other than the next period's
solution (ConsLaborModel.py lines 73-75).  The shock distributions are
(probability, value) vectors; `TranShkGrid` shares the length of the
transitory distribution, as the driver constructs it (`updateTranShkGrid`)
and as every array operation of the solver requires. -/
structure LaborSolverInput where
  aXtraCount : ℕ
  TranShkCount : ℕ
  PermShkCount : ℕ
  aXtraGrid : Fin aXtraCount → ℝ
  TranShkPrbs : Fin TranShkCount → ℝ
  TranShkVals : Fin TranShkCount → ℝ
  TranShkGrid : Fin TranShkCount → ℝ
  PermShkPrbs : Fin PermShkCount → ℝ
  PermShkVals : Fin PermShkCount → ℝ
  LivPrb : ℝ
  DiscFac : ℝ
  CRRA : ℝ
  Rfree : ℝ
  PermGroFac : ℝ
  WageRte : ℝ
  LbrCost : ℝ
  BoroCnstArt : Option ℝ
  vFuncBool : Bool
  CubicBool : Bool

variable (P : LaborSolverInput)

/-- Line 131: `frac = 1/(1+LbrCost)`. -/
def frac : ℝ := 1 / (1 + P.LbrCost)

/-- Line 152: the inverse marginal utility at this period's CRRA. -/
def uPinv (X : ℝ) : ℝ := CRRAutilityP_inv X P.CRRA

variable (vPfunc_next : ℝ → ℝ → ℝ)

/-- Line 161: next period's bank balances `Rfree * a` on the asset grid. -/
def bNext (i : Fin P.aXtraCount) : ℝ := P.Rfree * P.aXtraGrid i

/-- Line 162: next period's marginal value at each gridpoint and shock. -/
def vPNext (i : Fin P.aXtraCount) (j : Fin P.TranShkCount) : ℝ :=
  vPfunc_next (bNext P i) (P.TranShkVals j)

/-- Line 163: the transitory shocks integrated out. -/
def vPbarNext (i : Fin P.aXtraCount) : ℝ :=
  ∑ j, vPNext P vPfunc_next i j * P.TranShkPrbs j

/-- Line 164: the expectation transformed through inverse marginal utility. -/
def vPbarNvrsNext (i : Fin P.aXtraCount) : ℝ := uPinv P (vPbarNext P vPfunc_next i)

/-- Line 165: linear interpolation over `b`, with a point forced at 0. -/
def vPbarNvrsFuncNext : ℝ → ℝ :=
  LinearInterp ((0, 0) :: List.ofFn fun i => (bNext P i, vPbarNvrsNext P vPfunc_next i))

/-- Line 166: back through forward marginal utility. -/
def vPbarFuncNext : ℝ → ℝ := MargValueFunc (vPbarNvrsFuncNext P vPfunc_next) P.CRRA

/-- Line 172: next period's balances at each permanent shock. -/
def bNextPerm (i : Fin P.aXtraCount) (l : Fin P.PermShkCount) : ℝ :=
  P.Rfree / (P.PermGroFac * P.PermShkVals l) * P.aXtraGrid i

/-- Line 176: end-of-period marginal value of assets, one value per asset
gridpoint. -/
def EndOfPrdvP (i : Fin P.aXtraCount) : ℝ :=
  P.DiscFac * P.Rfree * P.LivPrb *
    ∑ l, (P.PermGroFac * P.PermShkVals l) ^ (-P.CRRA) *
      vPbarFuncNext P vPfunc_next (bNextPerm P i l) * P.PermShkPrbs l

/-- Line 178: the per-transitory-shock-node scale factor. -/
def TranShkScaleFac (j : Fin P.TranShkCount) : ℝ :=
  frac P * (P.WageRte * P.TranShkGrid j) ^ (P.LbrCost * frac P) *
    (P.LbrCost ^ (-P.LbrCost * frac P) + P.LbrCost ^ frac P)

/-- Line 182: the effective-consumption array, the EGM inversion step. -/
def xNowArray (i : Fin P.aXtraCount) (j : Fin P.TranShkCount) : ℝ :=
  (EndOfPrdvP P vPfunc_next i * TranShkScaleFac P j) ^
    (-1 / (P.CRRA - P.LbrCost * frac P))

/-- Line 186: `xNowArray ** frac`. -/
def xNowPowered (i : Fin P.aXtraCount) (j : Fin P.TranShkCount) : ℝ :=
  xNowArray P vPfunc_next i j ^ frac P

/-- Line 187: consumption from the effective-consumption solution, before
the shock-0 column overwrite and the labor-constraint clamp. -/
def cNrmNowFOC (i : Fin P.aXtraCount) (j : Fin P.TranShkCount) : ℝ :=
  ((P.WageRte * P.TranShkGrid j) / P.LbrCost) ^ (P.LbrCost * frac P) *
    xNowPowered P vPfunc_next i j

/-- Line 188: leisure from the effective-consumption solution, before the
shock-0 column overwrite and the labor-constraint clamp. -/
def LsrNowFOC (i : Fin P.aXtraCount) (j : Fin P.TranShkCount) : ℝ :=
  (P.LbrCost / (P.WageRte * P.TranShkGrid j)) ^ frac P *
    xNowPowered P vPfunc_next i j

/-- Line 189: `cNrmNow[:, 0] = uPinv(EndOfPrdvP_temp)` -- the first column
is overwritten with the closed form, unconditionally. -/
def cNrmNowShk0 (i : Fin P.aXtraCount) (j : Fin P.TranShkCount) : ℝ :=
  if j.val = 0 then uPinv P (EndOfPrdvP P vPfunc_next i)
  else cNrmNowFOC P vPfunc_next i j

/-- Line 190: `LsrNow[:, 0] = 1.0` -- the first column is overwritten with
leisure 1, unconditionally. -/
def LsrNowShk0 (i : Fin P.aXtraCount) (j : Fin P.TranShkCount) : ℝ :=
  if j.val = 0 then 1 else LsrNowFOC P vPfunc_next i j

/-- Lines 194-196: where the labor constraint is violated (`LsrNow > 1`),
consumption is replaced by the inverse marginal utility of the end-of-period
marginal value at that gridpoint. -/
def cNrmNow (i : Fin P.aXtraCount) (j : Fin P.TranShkCount) : ℝ :=
  if 1 < LsrNowShk0 P vPfunc_next i j then uPinv P (EndOfPrdvP P vPfunc_next i)
  else cNrmNowShk0 P vPfunc_next i j

/-- Lines 194 and 197: where the labor constraint is violated, leisure is
set to 1. -/
def LsrNow (i : Fin P.aXtraCount) (j : Fin P.TranShkCount) : ℝ :=
  if 1 < LsrNowShk0 P vPfunc_next i j then 1 else LsrNowShk0 P vPfunc_next i j

/-- Line 201: the implied current bank balance via the budget identity. -/
def bNrmNow (i : Fin P.aXtraCount) (j : Fin P.TranShkCount) : ℝ :=
  P.aXtraGrid i - P.WageRte * P.TranShkGrid j + cNrmNow P vPfunc_next i j +
    P.WageRte * P.TranShkGrid j * LsrNow P vPfunc_next i j

/-- Line 202: bank balances when consumption and leisure are both 0. -/
def bNowExtra (j : Fin P.TranShkCount) : ℝ := -(P.WageRte * P.TranShkGrid j)

/-- Line 203: the degenerate point prepended to the balance grid. -/
def bNowArray : Fin (P.aXtraCount + 1) → Fin P.TranShkCount → ℝ :=
  consRow (bNowExtra P) (bNrmNow P vPfunc_next)

/-- Line 205: a row of zeros prepended to consumption. -/
def cNowArray : Fin (P.aXtraCount + 1) → Fin P.TranShkCount → ℝ :=
  consRow (fun _ => 0) (cNrmNow P vPfunc_next)

/-- Line 206: a row of zeros prepended to leisure, before the `[0, 0]`
overwrite of line 207. -/
def LsrNowArrayPre : Fin (P.aXtraCount + 1) → Fin P.TranShkCount → ℝ :=
  consRow (fun _ => 0) (LsrNow P vPfunc_next)

/-- Line 207: `LsrNowArray[0, 0] = 1.0`. -/
def LsrNowArray (i : Fin (P.aXtraCount + 1)) (j : Fin P.TranShkCount) : ℝ :=
  if i.val = 0 ∧ j.val = 0 then 1 else LsrNowArrayPre P vPfunc_next i j

/-- Line 208: labor is the complement of leisure. -/
def LbrNowArray (i : Fin (P.aXtraCount + 1)) (j : Fin P.TranShkCount) : ℝ :=
  1 - LsrNowArray P vPfunc_next i j

/-- Line 212: pseudo-inverse marginal value from the (tiled) end-of-period
marginal value. -/
def vPnvrsNow (i : Fin P.aXtraCount) (_j : Fin P.TranShkCount) : ℝ :=
  uPinv P (EndOfPrdvP P vPfunc_next i)

/-- Line 213: a row of zeros prepended on the lower edge. -/
def vPnvrsNowArray : Fin (P.aXtraCount + 1) → Fin P.TranShkCount → ℝ :=
  consRow (fun _ => 0) (vPnvrsNow P vPfunc_next)

/-- Line 217: the minimum-balance function, interpolating the first row of
the balance array against the transitory-shock grid. -/
def bNrmMinNow : ℝ → ℝ :=
  LinearInterp (List.ofFn fun j =>
    (P.TranShkGrid j, bNowArray P vPfunc_next ⟨0, Nat.succ_pos _⟩ j))

/-- Line 226: the balance grid for shock `j`, shifted to start at 0. -/
def bNrmNow_temp (j : Fin P.TranShkCount) (i : Fin (P.aXtraCount + 1)) : ℝ :=
  bNowArray P vPfunc_next i j - bNowArray P vPfunc_next ⟨0, Nat.succ_pos _⟩ j

/-- Line 227: the per-shock 1D consumption interpolant. -/
def cFuncNow_list (j : Fin P.TranShkCount) : ℝ → ℝ :=
  LinearInterp (List.ofFn fun i =>
    (bNrmNow_temp P vPfunc_next j i, cNowArray P vPfunc_next i j))

/-- Line 228: the per-shock 1D labor interpolant. -/
def LbrFuncNow_list (j : Fin P.TranShkCount) : ℝ → ℝ :=
  LinearInterp (List.ofFn fun i =>
    (bNrmNow_temp P vPfunc_next j i, LbrNowArray P vPfunc_next i j))

/-- Line 229: the per-shock 1D pseudo-inverse marginal value interpolant. -/
def vPnvrsFuncNow_list (j : Fin P.TranShkCount) : ℝ → ℝ :=
  LinearInterp (List.ofFn fun i =>
    (bNrmNow_temp P vPfunc_next j i, vPnvrsNowArray P vPfunc_next i j))

/-- Line 233: the combined 2D consumption interpolant. -/
def cFuncNowBase : ℝ → ℝ → ℝ :=
  LinearInterpOnInterp1D (List.ofFn fun j => (P.TranShkGrid j, cFuncNow_list P vPfunc_next j))

/-- Line 234: the combined 2D labor interpolant. -/
def LbrFuncNowBase : ℝ → ℝ → ℝ :=
  LinearInterpOnInterp1D (List.ofFn fun j => (P.TranShkGrid j, LbrFuncNow_list P vPfunc_next j))

/-- Line 235: the combined 2D pseudo-inverse marginal value interpolant. -/
def vPnvrsFuncNowBase : ℝ → ℝ → ℝ :=
  LinearInterpOnInterp1D (List.ofFn fun j => (P.TranShkGrid j, vPnvrsFuncNow_list P vPfunc_next j))

/-- Line 239: consumption with the state-dependent lower bound. -/
def cFuncNow : ℝ → ℝ → ℝ :=
  VariableLowerBoundFunc2D (cFuncNowBase P vPfunc_next) (bNrmMinNow P vPfunc_next)

/-- Line 240: labor with the state-dependent lower bound. -/
def LbrFuncNow : ℝ → ℝ → ℝ :=
  VariableLowerBoundFunc2D (LbrFuncNowBase P vPfunc_next) (bNrmMinNow P vPfunc_next)

/-- Line 241: pseudo-inverse marginal value with the lower bound. -/
def vPnvrsFuncNow : ℝ → ℝ → ℝ :=
  VariableLowerBoundFunc2D (vPnvrsFuncNowBase P vPfunc_next) (bNrmMinNow P vPfunc_next)

/-- Line 245: the marginal value function from the envelope condition. -/
def vPfuncNow : ℝ → ℝ → ℝ := MargValueFunc2D (vPnvrsFuncNow P vPfunc_next) P.CRRA

/-- Line 249: the solution record the solver constructs. -/
def solutionNow : ConsumerLaborSolution :=
  ⟨cFuncNow P vPfunc_next, LbrFuncNow P vPfunc_next, vPfuncNow P vPfunc_next,
    bNrmMinNow P vPfunc_next⟩

/-- Lines 131-250: one period of the consumption-saving model with
endogenous labor supply, solved by the endogenous grid method.  The three
configuration guards of lines 133-142 produce no solution (`none`): the
CRRA guard terminates the process via `sys.exit()`, the other two return
`None`; in both shapes the call constructs no solution record.  Line 145
reads exactly one attribute of the next period's solution, `vPfunc`. -/
def solveConsLaborIntMarg (solution_next : ConsumerLaborSolution) :
    Option ConsumerLaborSolution :=
  if P.CRRA ≤ frac P * P.LbrCost then none
  else if P.BoroCnstArt.isSome then none
  else if P.vFuncBool || P.CubicBool then none
  else some (solutionNow P solution_next.vPfunc)

/-! ## Terminal solver

`LaborIntMargConsumerType.updateSolutionTerminal` (lines 388-443) builds
the final period's solution in closed form.  It uses the same parameter
bundle (only `aXtraGrid`, `TranShkGrid`, `WageRte`, `LbrCost`, `CRRA`).

On floating-point semantics of line 416: at a node with `WageRte*θ = 0`
and `b > 0`, numpy evaluates `b/(WageRte*θ)` to `+inf` and
`np.minimum(+inf, 1) = 1`; with `b = 0` as well it gives `nan`, which the
source then overwrites at position `[0, 0]` (line 417).  The embedding
makes that case split explicit.  The `nan` case arises only at a node with
`b = 0` and `WageRte*θ = 0` other than `[0, 0]`, which cannot occur for a
strictly increasing shock grid with a nonnegative first node and the
0-prepended positive asset grid the driver supplies. -/

/-- Line 409: `bNrmGrid = np.insert(aXtraGrid, 0, 0.0)`. -/
def bNrmGridTerm : Fin (P.aXtraCount + 1) → ℝ := consGrid 0 P.aXtraGrid

/-- Line 416, interior formula: the capped leisure
`min((LbrCost/(1+LbrCost)) * (b/(WageRte*θ) + 1), 1)`. -/
def LsrTermFormula (b θ : ℝ) : ℝ :=
  min (P.LbrCost / (1 + P.LbrCost) * (b / (P.WageRte * θ) + 1)) 1

/-- Lines 416-417: the terminal leisure array.  Position `[0, 0]` is set to
1 unconditionally (line 417); at a node with `WageRte*θ = 0` and `b > 0`
the float formula of line 416 evaluates to `min(+inf, 1) = 1` (see the
section comment for the remaining degenerate corner). -/
def LsrTerm (i : Fin (P.aXtraCount + 1)) (j : Fin P.TranShkCount) : ℝ :=
  if i.val = 0 ∧ j.val = 0 then 1
  else if P.WageRte * P.TranShkGrid j = 0 then 1
  else LsrTermFormula P (bNrmGridTerm P i) (P.TranShkGrid j)

/-- Line 418: terminal labor is the complement of leisure. -/
def LbrTerm (i : Fin (P.aXtraCount + 1)) (j : Fin P.TranShkCount) : ℝ :=
  1 - LsrTerm P i j

/-- Line 421: market resources in the terminal period. -/
def mNrmTerm (i : Fin (P.aXtraCount + 1)) (j : Fin P.TranShkCount) : ℝ :=
  bNrmGridTerm P i + LbrTerm P i j * P.WageRte * P.TranShkGrid j

/-- Line 422: terminal consumption, everything available is consumed. -/
def cNrmTerm (i : Fin (P.aXtraCount + 1)) (j : Fin P.TranShkCount) : ℝ :=
  mNrmTerm P i j

/-- Line 425: the terminal labor function. -/
def LbrFunc_terminal : ℝ → ℝ → ℝ :=
  BilinearInterp (LbrTerm P) (bNrmGridTerm P) P.TranShkGrid

/-- Line 426: the terminal consumption function. -/
def cFunc_terminal : ℝ → ℝ → ℝ :=
  BilinearInterp (cNrmTerm P) (bNrmGridTerm P) P.TranShkGrid

/-- Line 429: terminal effective consumption. -/
def xEffTerm (i : Fin (P.aXtraCount + 1)) (j : Fin P.TranShkCount) : ℝ :=
  LsrTerm P i j ^ P.LbrCost * cNrmTerm P i j

/-- Line 434: terminal marginal value by the envelope condition. -/
def vPterm (i : Fin (P.aXtraCount + 1)) (j : Fin P.TranShkCount) : ℝ :=
  LsrTerm P i j ^ P.LbrCost * CRRAutilityP (xEffTerm P i j) P.CRRA

/-- Line 435: terminal pseudo-inverse marginal value. -/
def vPnvrsTerm (i : Fin (P.aXtraCount + 1)) (j : Fin P.TranShkCount) : ℝ :=
  CRRAutilityP_inv (vPterm P i j) P.CRRA

/-- Line 437: the terminal pseudo-inverse marginal value function. -/
def vPnvrsFunc_terminal : ℝ → ℝ → ℝ :=
  BilinearInterp (vPnvrsTerm P) (bNrmGridTerm P) P.TranShkGrid

/-- Line 438: the terminal marginal value function. -/
def vPfunc_terminal : ℝ → ℝ → ℝ :=
  MargValueFunc2D (vPnvrsFunc_terminal P) P.CRRA

/-- Line 440: the terminal minimum-balance function, identically 0. -/
def bNrmMin_terminal : ℝ → ℝ := ConstantFunction 0

/-- Lines 442-443: the terminal solution record.  The value function the
source also stores is read by no solver and is not modelled. -/
def solution_terminal : ConsumerLaborSolution :=
  ⟨cFunc_terminal P, LbrFunc_terminal P, vPfunc_terminal P, bNrmMin_terminal⟩

/-! ## Concrete instances

A small fully concrete solver input used to evaluate the embedding on
actual numbers: two asset gridpoints, two transitory shock outcomes (one of
them 0, as the model's shock-0 closed form expects first on the grid), a
degenerate permanent shock, and all scalar parameters 1.  The next period's
marginal value is the economically natural decreasing positive function
`2 / b`. -/

/-- A concrete, spec-valid solver input: `aXtraGrid = [1, 2]`,
`TranShkDstn = ([1/2, 1/2], [0, 1])`, `TranShkGrid = [0, 1]`,
`PermShkDstn = ([1], [1])`, all scalar parameters 1, no artificial
borrowing constraint, no value function, no cubic interpolation. -/
def Pstar : LaborSolverInput where
  aXtraCount := 2
  TranShkCount := 2
  PermShkCount := 1
  aXtraGrid := fun i => if i.val = 0 then 1 else 2
  TranShkPrbs := fun _ => 1 / 2
  TranShkVals := fun j => if j.val = 0 then 0 else 1
  TranShkGrid := fun j => if j.val = 0 then 0 else 1
  PermShkPrbs := fun _ => 1
  PermShkVals := fun _ => 1
  LivPrb := 1
  DiscFac := 1
  CRRA := 1
  Rfree := 1
  PermGroFac := 1
  WageRte := 1
  LbrCost := 1
  BoroCnstArt := none
  vFuncBool := false
  CubicBool := false

/-- A decreasing positive next-period marginal value function. -/
def vPstar : ℝ → ℝ → ℝ := fun b _ => 2 / b

/-- A next-period solution carrying `vPstar` as its marginal value. -/
def solNextStar : ConsumerLaborSolution :=
  ⟨fun _ _ => 0, fun _ _ => 0, vPstar, fun _ => 0⟩

/-- The same next-period solution with different consumption, labor and
minimum-balance fields but the same marginal value function. -/
def solNextStar2 : ConsumerLaborSolution :=
  ⟨fun _ _ => 1, fun _ _ => 1, vPstar, fun _ => 1⟩

/-- The concrete input with the risk-aversion coefficient lowered to
exactly `LbrCost / (1 + LbrCost) = 1/2`. -/
def PstarLowCRRA : LaborSolverInput := { Pstar with CRRA := 1 / 2 }

/-- The concrete input with value-function computation requested. -/
def PstarVFunc : LaborSolverInput := { Pstar with vFuncBool := true }

/-- The concrete input with cubic interpolation requested. -/
def PstarCubic : LaborSolverInput := { Pstar with CubicBool := true }

/-- The concrete input with an artificial borrowing constraint present. -/
def PstarBoro : LaborSolverInput := { Pstar with BoroCnstArt := some 0 }

/-- A concrete terminal-solver input whose transitory-shock grid starts at
a nonzero node: one asset gridpoint `[1]` and shock grid `[1]`. -/
def Pterm : LaborSolverInput :=
  { Pstar with
    aXtraCount := 1
    TranShkCount := 1
    aXtraGrid := fun _ => 1
    TranShkPrbs := fun _ => 1
    TranShkVals := fun _ => 1
    TranShkGrid := fun _ => 1 }

/-- The first transitory-shock index of the concrete input. -/
def jt0 : Fin Pstar.TranShkCount := ⟨0, Nat.succ_pos 1⟩

/-- The second transitory-shock index of the concrete input. -/
def jt1 : Fin Pstar.TranShkCount := ⟨1, Nat.lt_succ_self 1⟩

/-- The first asset-grid index of the concrete input. -/
def ia0 : Fin Pstar.aXtraCount := ⟨0, Nat.succ_pos 1⟩

/-- The second asset-grid index of the concrete input. -/
def ia1 : Fin Pstar.aXtraCount := ⟨1, Nat.lt_succ_self 1⟩

/-- Row index 0 of the prepended arrays of the concrete input. -/
def r0 : Fin (Pstar.aXtraCount + 1) := ⟨0, Nat.succ_pos 2⟩

/-- Row index 1 of the prepended arrays of the concrete input. -/
def r1 : Fin (Pstar.aXtraCount + 1) := ⟨1, Nat.lt_of_sub_eq_succ rfl⟩

/-- Row index 2 of the prepended arrays of the concrete input. -/
def r2 : Fin (Pstar.aXtraCount + 1) := ⟨2, Nat.lt_succ_self 2⟩

/-! ## Basic lemmas about the embedding's building blocks -/

theorem consRow_zero {n m : ℕ} (r : Fin m → ℝ) (A : Fin n → Fin m → ℝ)
    (h : 0 < n + 1) (j : Fin m) : consRow r A ⟨0, h⟩ j = r j := rfl

theorem consRow_zero_lit {n m : ℕ} (r : Fin m → ℝ) (A : Fin n → Fin m → ℝ)
    (j : Fin m) : consRow r A 0 j = r j := rfl

theorem consRow_succ {n m : ℕ} (r : Fin m → ℝ) (A : Fin n → Fin m → ℝ)
    (i : Fin n) (j : Fin m) : consRow r A i.succ j = A i j := by
  rcases i with ⟨iv, hi⟩
  rfl

theorem consGrid_zero {n : ℕ} (v : ℝ) (g : Fin n → ℝ) (h : 0 < n + 1) :
    consGrid v g ⟨0, h⟩ = v := rfl

theorem consGrid_zero_lit {n : ℕ} (v : ℝ) (g : Fin n → ℝ) :
    consGrid v g 0 = v := rfl

theorem consGrid_succ {n : ℕ} (v : ℝ) (g : Fin n → ℝ) (i : Fin n) :
    consGrid v g i.succ = g i := by
  rcases i with ⟨iv, hi⟩
  rfl

/-- Antitonicity of a real power with a nonpositive exponent written as a
negation, on positive bases. -/
theorem rpow_anti {x y e : ℝ} (hx : 0 < x) (hxy : x ≤ y) (he : 0 ≤ e) :
    y ^ (-e) ≤ x ^ (-e) := by
  rw [Real.rpow_neg hx.le, Real.rpow_neg (hx.trans_le hxy).le]
  exact inv_anti₀ (Real.rpow_pos_of_pos hx e) (Real.rpow_le_rpow hx.le hxy he)

/-! ## Evaluation of the solver on the concrete input `Pstar` -/

theorem frac_star : frac Pstar = 1 / 2 := by
  rw [frac]
  norm_num [Pstar]

theorem uPinv_star (u : ℝ) : uPinv Pstar u = u⁻¹ := by
  rw [uPinv, CRRAutilityP_inv]
  norm_num [Pstar, Real.rpow_neg_one]

theorem bNext_star (i : Fin Pstar.aXtraCount) :
    bNext Pstar i = if i.val = 0 then 1 else 2 := by
  rw [bNext]
  by_cases h : i.val = 0 <;> simp [Pstar, h]

theorem vPNext_star (i : Fin Pstar.aXtraCount) (j : Fin Pstar.TranShkCount) :
    vPNext Pstar vPstar i j = if i.val = 0 then 2 else 1 := by
  rw [vPNext, bNext_star, vPstar]
  by_cases h : i.val = 0 <;> simp [h] <;> norm_num

theorem vPbarNext_star (i : Fin Pstar.aXtraCount) :
    vPbarNext Pstar vPstar i = if i.val = 0 then 2 else 1 := by
  rw [vPbarNext]
  simp only [vPNext_star]
  simp only [Pstar]
  rw [Fin.sum_univ_two]
  by_cases h : i.val = 0 <;> simp [h] <;> norm_num

theorem vPbarNvrsNext_star (i : Fin Pstar.aXtraCount) :
    vPbarNvrsNext Pstar vPstar i = if i.val = 0 then 1 / 2 else 1 := by
  rw [vPbarNvrsNext, vPbarNext_star, uPinv_star]
  by_cases h : i.val = 0 <;> simp [h] <;> norm_num

theorem vPbarNvrsFuncNext_star_a0 : vPbarNvrsFuncNext Pstar vPstar 1 = 1 / 2 := by
  rw [vPbarNvrsFuncNext]
  simp only [bNext_star, vPbarNvrsNext_star]
  simp only [Pstar]
  simp only [List.ofFn_succ, List.ofFn_zero, Fin.val_succ, Fin.val_zero]
  rw [LinearInterp]
  norm_num [linInterpSeg]

theorem vPbarNvrsFuncNext_star_a1 : vPbarNvrsFuncNext Pstar vPstar 2 = 1 := by
  rw [vPbarNvrsFuncNext]
  simp only [bNext_star, vPbarNvrsNext_star]
  simp only [Pstar]
  simp only [List.ofFn_succ, List.ofFn_zero, Fin.val_succ, Fin.val_zero]
  rw [LinearInterp]
  norm_num [LinearInterp, linInterpSeg]

theorem bNextPerm_star (i : Fin Pstar.aXtraCount) (l : Fin Pstar.PermShkCount) :
    bNextPerm Pstar i l = if i.val = 0 then 1 else 2 := by
  rw [bNextPerm]
  by_cases h : i.val = 0 <;> simp [Pstar, h]

theorem vPbarFuncNext_star_a0 : vPbarFuncNext Pstar vPstar 1 = 2 := by
  rw [vPbarFuncNext, MargValueFunc, vPbarNvrsFuncNext_star_a0, CRRAutilityP]
  norm_num [Pstar, Real.rpow_neg_one]

theorem vPbarFuncNext_star_a1 : vPbarFuncNext Pstar vPstar 2 = 1 := by
  rw [vPbarFuncNext, MargValueFunc, vPbarNvrsFuncNext_star_a1, CRRAutilityP]
  norm_num [Pstar, Real.one_rpow]

theorem EndOfPrdvP_star (i : Fin Pstar.aXtraCount) :
    EndOfPrdvP Pstar vPstar i = if i.val = 0 then 2 else 1 := by
  rw [EndOfPrdvP]
  simp only [bNextPerm_star, apply_ite (vPbarFuncNext Pstar vPstar),
    vPbarFuncNext_star_a0, vPbarFuncNext_star_a1]
  simp only [Pstar]
  rw [Fin.sum_univ_one]
  by_cases h : i.val = 0 <;> simp [h] <;> norm_num [Real.one_rpow]

theorem rpow_neg_two_eval (x : ℝ) (hx : 0 ≤ x) : x ^ ((-2) : ℝ) = (x ^ 2)⁻¹ := by
  rw [show ((-2) : ℝ) = -((2 : ℕ) : ℝ) by norm_num, Real.rpow_neg hx, Real.rpow_natCast]

theorem rpow_half_quarter : ((1 / 4 : ℝ)) ^ ((1 / 2 : ℝ)) = 1 / 2 := by
  rw [show (1 / 4 : ℝ) = (1 / 2 : ℝ) ^ (2 : ℕ) by norm_num,
    ← Real.rpow_natCast (1 / 2) 2, ← Real.rpow_mul (by norm_num : (0 : ℝ) ≤ 1 / 2)]
  norm_num [Real.rpow_one]

theorem TranShkScaleFac_star (j : Fin Pstar.TranShkCount) :
    TranShkScaleFac Pstar j = if j.val = 0 then 0 else 1 := by
  rw [TranShkScaleFac, frac_star]
  by_cases h : j.val = 0 <;>
    simp [Pstar, h] <;>
    norm_num [Real.zero_rpow, Real.one_rpow]

theorem xNowArray_star (i : Fin Pstar.aXtraCount) (j : Fin Pstar.TranShkCount) :
    xNowArray Pstar vPstar i j =
      if j.val = 0 then 0 else if i.val = 0 then 1 / 4 else 1 := by
  rw [xNowArray, EndOfPrdvP_star, TranShkScaleFac_star, frac_star]
  have he : (-1 / (Pstar.CRRA - Pstar.LbrCost * (1 / 2)) : ℝ) = -2 := by
    norm_num [Pstar]
  rw [he]
  by_cases hj : j.val = 0
  · rw [if_pos hj, if_pos hj, mul_zero, Real.zero_rpow (by norm_num)]
  · rw [if_neg hj, if_neg hj, mul_one]
    by_cases hi : i.val = 0
    · rw [if_pos hi, if_pos hi, rpow_neg_two_eval 2 (by norm_num)]
      norm_num
    · rw [if_neg hi, if_neg hi, rpow_neg_two_eval 1 (by norm_num)]
      norm_num

theorem xNowPowered_star (i : Fin Pstar.aXtraCount) (j : Fin Pstar.TranShkCount) :
    xNowPowered Pstar vPstar i j =
      if j.val = 0 then 0 else if i.val = 0 then 1 / 2 else 1 := by
  rw [xNowPowered, xNowArray_star, frac_star]
  by_cases hj : j.val = 0
  · rw [if_pos hj, if_pos hj, Real.zero_rpow (by norm_num)]
  · rw [if_neg hj, if_neg hj]
    by_cases hi : i.val = 0
    · rw [if_pos hi, if_pos hi, rpow_half_quarter]
    · rw [if_neg hi, if_neg hi, Real.one_rpow]

theorem cNrmNowFOC_star (i : Fin Pstar.aXtraCount) (j : Fin Pstar.TranShkCount) :
    cNrmNowFOC Pstar vPstar i j =
      if j.val = 0 then 0 else if i.val = 0 then 1 / 2 else 1 := by
  rw [cNrmNowFOC, xNowPowered_star, frac_star]
  by_cases hj : j.val = 0
  · simp [Pstar, hj, Real.zero_rpow]
  · simp only [hj, if_neg, if_false]
    simp [Pstar, hj, Real.one_rpow]

theorem LsrNowFOC_star (i : Fin Pstar.aXtraCount) (j : Fin Pstar.TranShkCount) :
    LsrNowFOC Pstar vPstar i j =
      if j.val = 0 then 0 else if i.val = 0 then 1 / 2 else 1 := by
  rw [LsrNowFOC, xNowPowered_star, frac_star]
  by_cases hj : j.val = 0
  · simp [Pstar, hj, Real.zero_rpow]
  · simp [Pstar, hj, Real.one_rpow]

theorem cNrmNowShk0_star (i : Fin Pstar.aXtraCount) (j : Fin Pstar.TranShkCount) :
    cNrmNowShk0 Pstar vPstar i j = if i.val = 0 then 1 / 2 else 1 := by
  rw [cNrmNowShk0]
  by_cases hj : j.val = 0
  · rw [if_pos hj, uPinv_star, EndOfPrdvP_star]
    by_cases hi : i.val = 0 <;> simp [hi] <;> norm_num
  · rw [if_neg hj, cNrmNowFOC_star, if_neg hj]

theorem LsrNowShk0_star (i : Fin Pstar.aXtraCount) (j : Fin Pstar.TranShkCount) :
    LsrNowShk0 Pstar vPstar i j =
      if j.val = 0 then 1 else if i.val = 0 then 1 / 2 else 1 := by
  rw [LsrNowShk0]
  by_cases hj : j.val = 0
  · rw [if_pos hj, if_pos hj]
  · rw [if_neg hj, if_neg hj, LsrNowFOC_star, if_neg hj]

theorem LsrNowShk0_star_le_one (i : Fin Pstar.aXtraCount) (j : Fin Pstar.TranShkCount) :
    ¬(1 < LsrNowShk0 Pstar vPstar i j) := by
  rw [LsrNowShk0_star]
  by_cases hj : j.val = 0
  · simp [hj]
  · by_cases hi : i.val = 0 <;> simp [hj, hi] <;> norm_num

theorem cNrmNow_star (i : Fin Pstar.aXtraCount) (j : Fin Pstar.TranShkCount) :
    cNrmNow Pstar vPstar i j = if i.val = 0 then 1 / 2 else 1 := by
  rw [cNrmNow, if_neg (LsrNowShk0_star_le_one i j), cNrmNowShk0_star]

theorem LsrNow_star (i : Fin Pstar.aXtraCount) (j : Fin Pstar.TranShkCount) :
    LsrNow Pstar vPstar i j =
      if j.val = 0 then 1 else if i.val = 0 then 1 / 2 else 1 := by
  rw [LsrNow, if_neg (LsrNowShk0_star_le_one i j), LsrNowShk0_star]

theorem bNrmNow_star (i : Fin Pstar.aXtraCount) (j : Fin Pstar.TranShkCount) :
    bNrmNow Pstar vPstar i j =
      if j.val = 0 then (if i.val = 0 then 3 / 2 else 3)
      else (if i.val = 0 then 1 else 3) := by
  rw [bNrmNow, cNrmNow_star, LsrNow_star]
  by_cases hj : j.val = 0 <;> by_cases hi : i.val = 0 <;>
    simp [Pstar, hj, hi] <;> norm_num

theorem bNowExtra_star (j : Fin Pstar.TranShkCount) :
    bNowExtra Pstar j = if j.val = 0 then 0 else -1 := by
  rw [bNowExtra]
  by_cases hj : j.val = 0 <;> simp [Pstar, hj]

theorem consRow_mk_succ {n m : ℕ} (r : Fin m → ℝ) (A : Fin n → Fin m → ℝ)
    (k : ℕ) (h : k + 1 < n + 1) (j : Fin m) :
    consRow r A ⟨k + 1, h⟩ j = A ⟨k, Nat.lt_of_succ_lt_succ h⟩ j := rfl

theorem LinearInterp_two (p0 p1 : ℝ × ℝ) (x : ℝ) :
    LinearInterp [p0, p1] x = linInterpSeg p0.1 p0.2 p1.1 p1.2 x := rfl

theorem LinearInterp_cons (p0 p1 p2 : ℝ × ℝ) (rest : List (ℝ × ℝ)) (x : ℝ) :
    LinearInterp (p0 :: p1 :: p2 :: rest) x =
      if x ≤ p1.1 then linInterpSeg p0.1 p0.2 p1.1 p1.2 x
      else LinearInterp (p1 :: p2 :: rest) x := rfl

theorem LinearInterpOnInterp1D_two (p0 p1 : ℝ × (ℝ → ℝ)) (x y : ℝ) :
    LinearInterpOnInterp1D [p0, p1] x y =
      linInterpSeg p0.1 (p0.2 x) p1.1 (p1.2 x) y := rfl

theorem Pstar_TranShkGrid (j : Fin Pstar.TranShkCount) :
    Pstar.TranShkGrid j = if j.val = 0 then 0 else 1 := rfl

theorem bNowArray_star (i : Fin (Pstar.aXtraCount + 1)) (j : Fin Pstar.TranShkCount) :
    bNowArray Pstar vPstar i j =
      if j.val = 0 then (if i.val = 0 then 0 else if i.val = 1 then 3 / 2 else 3)
      else (if i.val = 0 then -1 else if i.val = 1 then 1 else 3) := by
  rcases i with ⟨iv, hi⟩
  have hi3 : iv < 3 := by simpa [Pstar] using hi
  rw [bNowArray]
  rcases iv with _ | _ | _ | k
  · rw [consRow_zero, bNowExtra_star]
    by_cases hj : j.val = 0 <;> simp [hj]
  · rw [consRow_mk_succ, bNrmNow_star]
    by_cases hj : j.val = 0 <;> simp [hj]
  · rw [consRow_mk_succ, bNrmNow_star]
    by_cases hj : j.val = 0 <;> simp [hj]
  · omega

theorem cNowArray_star (i : Fin (Pstar.aXtraCount + 1)) (j : Fin Pstar.TranShkCount) :
    cNowArray Pstar vPstar i j =
      if i.val = 0 then 0 else if i.val = 1 then 1 / 2 else 1 := by
  rcases i with ⟨iv, hi⟩
  have hi3 : iv < 3 := by simpa [Pstar] using hi
  rw [cNowArray]
  rcases iv with _ | _ | _ | k
  · rw [consRow_zero]
    simp
  · rw [consRow_mk_succ, cNrmNow_star]
    simp
  · rw [consRow_mk_succ, cNrmNow_star]
    simp
  · omega

theorem LsrNowArray_star (i : Fin (Pstar.aXtraCount + 1)) (j : Fin Pstar.TranShkCount) :
    LsrNowArray Pstar vPstar i j =
      if j.val = 0 then 1
      else (if i.val = 0 then 0 else if i.val = 1 then 1 / 2 else 1) := by
  rcases i with ⟨iv, hi⟩
  have hi3 : iv < 3 := by simpa [Pstar] using hi
  rw [LsrNowArray, LsrNowArrayPre]
  rcases iv with _ | _ | _ | k
  · by_cases hj : j.val = 0
    · simp [hj]
    · rw [if_neg (by simp [hj]), consRow_zero]
      simp [hj]
  · rw [if_neg (by simp), consRow_mk_succ, LsrNow_star]
    by_cases hj : j.val = 0 <;> simp [hj]
  · rw [if_neg (by simp), consRow_mk_succ, LsrNow_star]
    by_cases hj : j.val = 0 <;> simp [hj]
  · omega

theorem LbrNowArray_star (i : Fin (Pstar.aXtraCount + 1)) (j : Fin Pstar.TranShkCount) :
    LbrNowArray Pstar vPstar i j =
      if j.val = 0 then 0
      else (if i.val = 0 then 1 else if i.val = 1 then 1 / 2 else 0) := by
  rw [LbrNowArray, LsrNowArray_star]
  by_cases hj : j.val = 0
  · simp [hj]
  · by_cases h0 : i.val = 0
    · simp [hj, h0]
    · by_cases h1 : i.val = 1 <;> simp [hj, h0, h1] <;> norm_num

theorem vPnvrsNowArray_star (i : Fin (Pstar.aXtraCount + 1)) (j : Fin Pstar.TranShkCount) :
    vPnvrsNowArray Pstar vPstar i j =
      if i.val = 0 then 0 else if i.val = 1 then 1 / 2 else 1 := by
  rcases i with ⟨iv, hi⟩
  have hi3 : iv < 3 := by simpa [Pstar] using hi
  rw [vPnvrsNowArray]
  rcases iv with _ | _ | _ | k
  · rw [consRow_zero]
    simp
  · rw [consRow_mk_succ, vPnvrsNow, uPinv_star, EndOfPrdvP_star]
    simp
  · rw [consRow_mk_succ, vPnvrsNow, uPinv_star, EndOfPrdvP_star]
    simp
  · omega

theorem bNrmNow_temp_star (j : Fin Pstar.TranShkCount) (i : Fin (Pstar.aXtraCount + 1)) :
    bNrmNow_temp Pstar vPstar j i =
      if j.val = 0 then (if i.val = 0 then 0 else if i.val = 1 then 3 / 2 else 3)
      else (if i.val = 0 then 0 else if i.val = 1 then 2 else 4) := by
  rw [bNrmNow_temp, bNowArray_star, bNowArray_star]
  by_cases hj : j.val = 0
  · by_cases h0 : i.val = 0
    · simp [hj, h0]
    · by_cases h1 : i.val = 1 <;> simp [hj, h0, h1] <;> norm_num
  · by_cases h0 : i.val = 0
    · simp [hj, h0]
    · by_cases h1 : i.val = 1 <;> simp [hj, h0, h1] <;> norm_num

theorem ofFn_star_shk {α : Type} (g : Fin Pstar.TranShkCount → α) :
    List.ofFn g = [g jt0, g jt1] := rfl

theorem ofFn_star_rows {α : Type} (g : Fin (Pstar.aXtraCount + 1) → α) :
    List.ofFn g = [g r0, g r1, g r2] := rfl

theorem jt0_val : jt0.val = 0 := rfl

theorem jt1_val : jt1.val = 1 := rfl

theorem r0_val : r0.val = 0 := rfl

theorem r1_val : r1.val = 1 := rfl

theorem r2_val : r2.val = 2 := rfl

theorem bNrmMinNow_star : bNrmMinNow Pstar vPstar 1 = -1 := by
  rw [bNrmMinNow, ofFn_star_shk]
  simp only [Pstar_TranShkGrid, bNowArray_star, jt0_val, jt1_val]
  norm_num [LinearInterp_two, linInterpSeg]

theorem LbrFuncNow_list_star6 (j : Fin Pstar.TranShkCount) :
    LbrFuncNow_list Pstar vPstar j 6 = if j.val = 0 then 0 else -(1 / 2) := by
  rw [LbrFuncNow_list, ofFn_star_rows]
  simp only [bNrmNow_temp_star, LbrNowArray_star, r0_val, r1_val, r2_val]
  by_cases hj : j.val = 0
  · simp only [hj, if_pos rfl]
    norm_num [LinearInterp_cons, LinearInterp_two, linInterpSeg]
  · simp only [hj, if_neg hj, if_false]
    norm_num [LinearInterp_cons, LinearInterp_two, linInterpSeg]

theorem vPnvrsFuncNow_list_star2 (j : Fin Pstar.TranShkCount) :
    vPnvrsFuncNow_list Pstar vPstar j 2 = if j.val = 0 then 2 / 3 else 1 / 2 := by
  rw [vPnvrsFuncNow_list, ofFn_star_rows]
  simp only [bNrmNow_temp_star, vPnvrsNowArray_star, r0_val, r1_val, r2_val]
  by_cases hj : j.val = 0
  · simp only [hj, if_pos rfl]
    norm_num [LinearInterp_cons, LinearInterp_two, linInterpSeg]
  · simp only [hj, if_neg hj, if_false]
    norm_num [LinearInterp_cons, LinearInterp_two, linInterpSeg]

theorem vPnvrsFuncNow_list_star4 (j : Fin Pstar.TranShkCount) :
    vPnvrsFuncNow_list Pstar vPstar j 4 = if j.val = 0 then 4 / 3 else 1 := by
  rw [vPnvrsFuncNow_list, ofFn_star_rows]
  simp only [bNrmNow_temp_star, vPnvrsNowArray_star, r0_val, r1_val, r2_val]
  by_cases hj : j.val = 0
  · simp only [hj, if_pos rfl]
    norm_num [LinearInterp_cons, LinearInterp_two, linInterpSeg]
  · simp only [hj, if_neg hj, if_false]
    norm_num [LinearInterp_cons, LinearInterp_two, linInterpSeg]

theorem LbrFuncNow_star : LbrFuncNow Pstar vPstar 5 1 = -(1 / 2) := by
  rw [LbrFuncNow, VariableLowerBoundFunc2D, bNrmMinNow_star]
  have h6 : (5 : ℝ) - -1 = 6 := by norm_num
  rw [h6, LbrFuncNowBase, ofFn_star_shk, LinearInterpOnInterp1D_two]
  simp only [Pstar_TranShkGrid, jt0_val, jt1_val, LbrFuncNow_list_star6]
  norm_num [linInterpSeg]

theorem vPfuncNow_star_b1 : vPfuncNow Pstar vPstar 1 1 = 2 := by
  rw [vPfuncNow, MargValueFunc2D, vPnvrsFuncNow, VariableLowerBoundFunc2D,
    bNrmMinNow_star]
  have h2 : (1 : ℝ) - -1 = 2 := by norm_num
  rw [h2, vPnvrsFuncNowBase, ofFn_star_shk, LinearInterpOnInterp1D_two]
  simp only [Pstar_TranShkGrid, jt0_val, jt1_val, vPnvrsFuncNow_list_star2]
  rw [CRRAutilityP]
  norm_num [linInterpSeg, Pstar, Real.rpow_neg_one]

theorem vPfuncNow_star_b3 : vPfuncNow Pstar vPstar 3 1 = 1 := by
  rw [vPfuncNow, MargValueFunc2D, vPnvrsFuncNow, VariableLowerBoundFunc2D,
    bNrmMinNow_star]
  have h4 : (3 : ℝ) - -1 = 4 := by norm_num
  rw [h4, vPnvrsFuncNowBase, ofFn_star_shk, LinearInterpOnInterp1D_two]
  simp only [Pstar_TranShkGrid, jt0_val, jt1_val, vPnvrsFuncNow_list_star4]
  rw [CRRAutilityP]
  norm_num [linInterpSeg, Pstar, Real.one_rpow]

/-! ## Claim theorems -/

/-- C1: for every asset gridpoint `a` on `aXtraGrid` and every
transitory-shock node on `TranShkGrid`, the bank-balance array constructed
by the one-period EGM solver satisfies the budget identity
`b = a - wage*θ + c + wage*θ*leisure` exactly at that gridpoint, before any
interpolation, where `c` and leisure are the final consumption and leisure
values computed for `(a, θ)`, the shock-0 overwrite and the labor-constraint
clamp included (source line 201; row `i.succ` of the prepended array is the
row of gridpoint `i`). -/
theorem C1_budget_identity (P : LaborSolverInput) (vPn : ℝ → ℝ → ℝ)
    (i : Fin P.aXtraCount) (j : Fin P.TranShkCount) :
    bNowArray P vPn i.succ j =
      P.aXtraGrid i - P.WageRte * P.TranShkGrid j + cNrmNow P vPn i j +
        P.WageRte * P.TranShkGrid j * LsrNow P vPn i j := by
  rw [bNowArray, consRow_succ, bNrmNow]

/-- C2: the labor-constraint patch of lines 192-197 is a hard elementwise
clamp.  At every gridpoint whose leisure value entering the clamp (the
interior first-order-condition value, after the unconditional shock-0
column overwrite of lines 189-190) exceeds 1 strictly, leisure is set to
exactly 1 and consumption to the inverse marginal utility of the
end-of-period marginal value at that gridpoint; every other gridpoint keeps
the values it had. -/
theorem C2_labor_clamp (P : LaborSolverInput) (vPn : ℝ → ℝ → ℝ)
    (i : Fin P.aXtraCount) (j : Fin P.TranShkCount) :
    (1 < LsrNowShk0 P vPn i j →
      LsrNow P vPn i j = 1 ∧
      cNrmNow P vPn i j = uPinv P (EndOfPrdvP P vPn i)) ∧
    (LsrNowShk0 P vPn i j ≤ 1 →
      LsrNow P vPn i j = LsrNowShk0 P vPn i j ∧
      cNrmNow P vPn i j = cNrmNowShk0 P vPn i j) := by
  constructor
  · intro h
    rw [LsrNow, if_pos h, cNrmNow, if_pos h]
    exact ⟨rfl, rfl⟩
  · intro h
    rw [LsrNow, if_neg (not_lt.mpr h), cNrmNow, if_neg (not_lt.mpr h)]
    exact ⟨rfl, rfl⟩

/-- C3: whenever `CRRA ≤ LbrCost/(1+LbrCost)` -- equality included -- the
one-period solver refuses to run and produces no solution (lines 133-136:
the guard fires before any computation and the process exits). -/
theorem C3_reject_low_CRRA (P : LaborSolverInput) (sn : ConsumerLaborSolution)
    (h : P.CRRA ≤ P.LbrCost / (1 + P.LbrCost)) :
    solveConsLaborIntMarg P sn = none := by
  have hc : P.CRRA ≤ frac P * P.LbrCost := by
    rw [frac, div_mul_eq_mul_div, one_mul]
    exact h
  rw [solveConsLaborIntMarg, if_pos hc]

theorem C3_witness : solveConsLaborIntMarg PstarLowCRRA solNextStar = none :=
  C3_reject_low_CRRA PstarLowCRRA solNextStar (by norm_num [PstarLowCRRA, Pstar])

/-- C4: whenever an artificial borrowing constraint is present, or the
value function is requested, or cubic interpolation is requested, the
one-period solver aborts before any computation and produces no solution
(lines 137-142). -/
theorem C4_reject_unsupported (P : LaborSolverInput) (sn : ConsumerLaborSolution)
    (h : P.BoroCnstArt.isSome = true ∨ P.vFuncBool = true ∨ P.CubicBool = true) :
    solveConsLaborIntMarg P sn = none := by
  rw [solveConsLaborIntMarg]
  split_ifs with h1 h2 h3
  · rfl
  · rfl
  · rfl
  · exfalso
    rw [Bool.or_eq_true] at h3
    rcases h with h | h | h
    · exact h2 h
    · exact h3 (Or.inl h)
    · exact h3 (Or.inr h)

theorem C4_witness : solveConsLaborIntMarg PstarVFunc solNextStar = none :=
  C4_reject_unsupported PstarVFunc solNextStar (Or.inr (Or.inl rfl))

/-- C6: for the solution record built by the one-period solver and for the
terminal solution, the marginal-value function is exactly the forward CRRA
marginal-utility transform of the pseudo-inverse marginal-value function at
the same query point (lines 243-245 and 437-438). -/
theorem C6_envelope_roundtrip (P : LaborSolverInput) (vPn : ℝ → ℝ → ℝ) (b θ : ℝ) :
    (solutionNow P vPn).vPfunc b θ =
      CRRAutilityP (vPnvrsFuncNow P vPn b θ) P.CRRA ∧
    (solution_terminal P).vPfunc b θ =
      CRRAutilityP (vPnvrsFunc_terminal P b θ) P.CRRA :=
  ⟨rfl, rfl⟩

/-- C7 counterexample: with the terminal input whose transitory-shock grid
is `[1]` (a strictly increasing grid with a nonzero first node), asset grid
`[1]`, wage 1 and labor cost 1, the terminal leisure at the node
`(b, θ) = (0, 1)` is 1 -- set by the unconditional `LsrTerm[0, 0] = 1.0` of
line 417 -- while the capped formula of line 416 yields `1/2` at that node,
whose shock value is not 0.  The claim's formula therefore fails at a
constructed node. -/
theorem C7_counterexample :
    LsrTerm Pterm ⟨0, Nat.succ_pos 1⟩ ⟨0, Nat.succ_pos 0⟩ = 1 ∧
    LsrTermFormula Pterm (bNrmGridTerm Pterm ⟨0, Nat.succ_pos 1⟩)
      (Pterm.TranShkGrid ⟨0, Nat.succ_pos 0⟩) = 1 / 2 ∧
    Pterm.WageRte * Pterm.TranShkGrid ⟨0, Nat.succ_pos 0⟩ = 1 := by
  refine ⟨?_, ?_, ?_⟩
  · rw [LsrTerm, if_pos ⟨rfl, rfl⟩]
  · rw [LsrTermFormula, bNrmGridTerm, consGrid_zero]
    norm_num [Pterm, Pstar]
  · show (1 : ℝ) * 1 = 1
    norm_num

/-- C7 amended: in the terminal solver, position `[0, 0]` of the leisure
array (first balance node, first shock node) is set to exactly 1
unconditionally; at every other node with nonzero `wage*θ` leisure equals
`min((LbrCost/(1+LbrCost)) * (b/(wage*θ) + 1), 1)`; when the first shock
node is 0 the overwritten position is exactly the degenerate case
`θ = 0, b = 0`, where leisure is 1 and labor is 0; consumption equals all
available resources `b + labor*wage*θ`; and the minimum-balance function is
identically 0. -/
theorem C7_terminal_policy (P : LaborSolverInput) (i : Fin (P.aXtraCount + 1))
    (j : Fin P.TranShkCount) (x : ℝ) :
    ((i.val = 0 ∧ j.val = 0) → LsrTerm P i j = 1 ∧ LbrTerm P i j = 0) ∧
    (¬(i.val = 0 ∧ j.val = 0) → P.WageRte * P.TranShkGrid j ≠ 0 →
      LsrTerm P i j =
        LsrTermFormula P (bNrmGridTerm P i) (P.TranShkGrid j)) ∧
    LbrTerm P i j = 1 - LsrTerm P i j ∧
    cNrmTerm P i j =
      bNrmGridTerm P i + LbrTerm P i j * P.WageRte * P.TranShkGrid j ∧
    bNrmMin_terminal x = 0 := by
  refine ⟨?_, ?_, rfl, rfl, rfl⟩
  · intro h
    have h1 : LsrTerm P i j = 1 := by rw [LsrTerm, if_pos h]
    exact ⟨h1, by rw [LbrTerm, h1, sub_self]⟩
  · intro h hw
    rw [LsrTerm, if_neg h, if_neg hw]

/-- C9: the one-period solver reads exactly one attribute of the next
period's solution, its marginal-value function `vPfunc` (line 145), and
mutates nothing: in this pure-value embedding the input record is untouched
by construction, and any two next-period solutions with the same `vPfunc`
produce identical results whatever their other fields hold. -/
theorem C9_reads_only_vPfunc (P : LaborSolverInput)
    (s1 s2 : ConsumerLaborSolution) (h : s1.vPfunc = s2.vPfunc) :
    solveConsLaborIntMarg P s1 = solveConsLaborIntMarg P s2 := by
  rw [solveConsLaborIntMarg, solveConsLaborIntMarg, h]

theorem C9_witness :
    solveConsLaborIntMarg Pstar solNextStar =
      solveConsLaborIntMarg Pstar solNextStar2 :=
  C9_reads_only_vPfunc Pstar solNextStar solNextStar2 rfl

/-- C10: the shock-0 closed form is applied to the first column of the
shock grid unconditionally (lines 189-190): whatever the first grid value
is, consumption in column 0 of the final arrays is the inverse marginal
utility of the end-of-period marginal value, leisure in column 0 is 1, and
the prepended degenerate row has leisure 1 at column 0 (line 207). -/
theorem C10_shk0_column_unconditional (P : LaborSolverInput) (vPn : ℝ → ℝ → ℝ)
    (i : Fin P.aXtraCount) (j : Fin P.TranShkCount) (hj : j.val = 0) :
    cNrmNow P vPn i j = uPinv P (EndOfPrdvP P vPn i) ∧
    LsrNow P vPn i j = 1 ∧
    (∀ i0 : Fin (P.aXtraCount + 1), i0.val = 0 → LsrNowArray P vPn i0 j = 1) := by
  have hs : LsrNowShk0 P vPn i j = 1 := by rw [LsrNowShk0, if_pos hj]
  have hnc : ¬(1 < LsrNowShk0 P vPn i j) := by
    rw [hs]
    exact lt_irrefl 1
  refine ⟨?_, ?_, ?_⟩
  · rw [cNrmNow, if_neg hnc, cNrmNowShk0, if_pos hj]
  · rw [LsrNow, if_neg hnc, hs]
  · intro i0 h0
    rw [LsrNowArray, if_pos ⟨h0, hj⟩]

theorem C10_witness :
    cNrmNow Pstar vPstar ia0 jt0 = uPinv Pstar (EndOfPrdvP Pstar vPstar ia0) ∧
    LsrNow Pstar vPstar ia0 jt0 = 1 ∧
    (∀ i0 : Fin (Pstar.aXtraCount + 1), i0.val = 0 →
      LsrNowArray Pstar vPstar i0 jt0 = 1) :=
  C10_shk0_column_unconditional Pstar vPstar ia0 jt0 rfl

/-- C5 counterexample: on the concrete valid input `Pstar` with next-period
marginal value `2/b`, the solver runs (all guards pass) and returns the
solution record of the embedding; at the query point `(b, θ) = (5, 1)`,
strictly above the minimum balance `-1` for shock 1, the returned labor
function evaluates to `-1/2 < 0` -- the query lies beyond the largest
constructed balance gridpoint and nearest-slope extrapolation leaves
`[0, 1]`. -/
theorem C5_counterexample :
    solveConsLaborIntMarg Pstar solNextStar = some (solutionNow Pstar vPstar) ∧
    bNrmMinNow Pstar vPstar 1 < 5 ∧
    (solutionNow Pstar vPstar).LbrFunc 5 1 < 0 := by
  refine ⟨?_, ?_, ?_⟩
  · rw [solveConsLaborIntMarg, if_neg (by norm_num [frac, Pstar]), if_neg (by
      norm_num [Pstar]), if_neg (by norm_num [Pstar])]
    rfl
  · rw [bNrmMinNow_star]
    norm_num
  · show LbrFuncNow Pstar vPstar 5 1 < 0
    rw [LbrFuncNow_star]
    norm_num

/-- C8 counterexample: on the same concrete valid input, the returned
marginal-value function is strictly decreasing in bank balances at fixed
shock 1: at `b = 1` it is 2 and at `b = 3` it is 1, both queries at least
the minimum balance `-1`.  Marginal value is therefore not non-decreasing
in `b` as the claim states. -/
theorem C8_counterexample :
    bNrmMinNow Pstar vPstar 1 ≤ 1 ∧ (1 : ℝ) ≤ 3 ∧
    (solutionNow Pstar vPstar).vPfunc 3 1 <
      (solutionNow Pstar vPstar).vPfunc 1 1 := by
  refine ⟨?_, by norm_num, ?_⟩
  · rw [bNrmMinNow_star]
    norm_num
  · show vPfuncNow Pstar vPstar 3 1 < vPfuncNow Pstar vPstar 1 1
    rw [vPfuncNow_star_b1, vPfuncNow_star_b3]
    norm_num

/-! ## Nonnegativity and bounds at the constructed gridpoints -/

theorem frac_nonneg (P : LaborSolverInput) (hα : 0 ≤ P.LbrCost) : 0 ≤ frac P := by
  rw [frac]
  apply div_nonneg zero_le_one
  linarith

theorem TranShkScaleFac_nonneg (P : LaborSolverInput) (j : Fin P.TranShkCount)
    (hα : 0 ≤ P.LbrCost) (hw : 0 ≤ P.WageRte) (hθ : 0 ≤ P.TranShkGrid j) :
    0 ≤ TranShkScaleFac P j := by
  rw [TranShkScaleFac]
  exact mul_nonneg
    (mul_nonneg (frac_nonneg P hα) (Real.rpow_nonneg (mul_nonneg hw hθ) _))
    (add_nonneg (Real.rpow_nonneg hα _) (Real.rpow_nonneg hα _))

theorem xNowPowered_nonneg (P : LaborSolverInput) (vPn : ℝ → ℝ → ℝ)
    (i : Fin P.aXtraCount) (j : Fin P.TranShkCount)
    (hE : 0 ≤ EndOfPrdvP P vPn i) (hs : 0 ≤ TranShkScaleFac P j) :
    0 ≤ xNowPowered P vPn i j :=
  Real.rpow_nonneg (Real.rpow_nonneg (mul_nonneg hE hs) _) _

theorem uPinv_nonneg (P : LaborSolverInput) (X : ℝ) (hX : 0 ≤ X) :
    0 ≤ uPinv P X :=
  Real.rpow_nonneg hX _

theorem cNrmNow_nonneg (P : LaborSolverInput) (vPn : ℝ → ℝ → ℝ)
    (i : Fin P.aXtraCount) (j : Fin P.TranShkCount) (hα : 0 ≤ P.LbrCost)
    (hw : 0 ≤ P.WageRte) (hθ : 0 ≤ P.TranShkGrid j)
    (hE : 0 ≤ EndOfPrdvP P vPn i) : 0 ≤ cNrmNow P vPn i j := by
  have hs := TranShkScaleFac_nonneg P j hα hw hθ
  rw [cNrmNow]
  split_ifs with h
  · exact uPinv_nonneg P _ hE
  · rw [cNrmNowShk0]
    split_ifs with h0
    · exact uPinv_nonneg P _ hE
    · rw [cNrmNowFOC]
      exact mul_nonneg
        (Real.rpow_nonneg (div_nonneg (mul_nonneg hw hθ) hα) _)
        (xNowPowered_nonneg P vPn i j hE hs)

theorem LsrNow_bounds (P : LaborSolverInput) (vPn : ℝ → ℝ → ℝ)
    (i : Fin P.aXtraCount) (j : Fin P.TranShkCount) (hα : 0 ≤ P.LbrCost)
    (hw : 0 ≤ P.WageRte) (hθ : 0 ≤ P.TranShkGrid j)
    (hE : 0 ≤ EndOfPrdvP P vPn i) :
    0 ≤ LsrNow P vPn i j ∧ LsrNow P vPn i j ≤ 1 := by
  have hs := TranShkScaleFac_nonneg P j hα hw hθ
  rw [LsrNow]
  split_ifs with h
  · exact ⟨zero_le_one, le_refl 1⟩
  · refine ⟨?_, not_lt.mp h⟩
    rw [LsrNowShk0]
    split_ifs with h0
    · exact zero_le_one
    · rw [LsrNowFOC]
      exact mul_nonneg
        (Real.rpow_nonneg (div_nonneg hα (mul_nonneg hw hθ)) _)
        (xNowPowered_nonneg P vPn i j hE hs)

/-- C5 amended: for nonnegative labor cost, wage and shock grid, and
nonnegative computed end-of-period marginal values, every constructed
gridpoint of the solver's arrays satisfies `consumption ≥ 0` and
`labor ∈ [0, 1]`.  The original claim extends these bounds to every query
point of the returned interpolated functions; that fails beyond the largest
constructed gridpoint, where nearest-slope extrapolation can leave the
bounds (see the counterexample, where the returned labor function reaches
`-1/2`). -/
theorem C5_gridpoint_bounds (P : LaborSolverInput) (vPn : ℝ → ℝ → ℝ)
    (hα : 0 ≤ P.LbrCost) (hw : 0 ≤ P.WageRte)
    (hθ : ∀ j : Fin P.TranShkCount, 0 ≤ P.TranShkGrid j)
    (hE : ∀ i : Fin P.aXtraCount, 0 ≤ EndOfPrdvP P vPn i)
    (i : Fin (P.aXtraCount + 1)) (j : Fin P.TranShkCount) :
    0 ≤ cNowArray P vPn i j ∧ 0 ≤ LbrNowArray P vPn i j ∧
      LbrNowArray P vPn i j ≤ 1 := by
  obtain ⟨iv, hi⟩ := i
  rcases iv with _ | k
  · refine ⟨?_, ?_, ?_⟩
    · rw [cNowArray, consRow_zero]
    · rw [LbrNowArray, LsrNowArray]
      split_ifs with h
      · norm_num
      · rw [LsrNowArrayPre, consRow_zero]
        norm_num
    · rw [LbrNowArray, LsrNowArray]
      split_ifs with h
      · norm_num
      · rw [LsrNowArrayPre, consRow_zero]
        norm_num
  · have hb := LsrNow_bounds P vPn ⟨k, Nat.lt_of_succ_lt_succ hi⟩ j hα hw (hθ j)
      (hE ⟨k, Nat.lt_of_succ_lt_succ hi⟩)
    refine ⟨?_, ?_, ?_⟩
    · rw [cNowArray, consRow_mk_succ]
      exact cNrmNow_nonneg P vPn _ j hα hw (hθ j) (hE _)
    · rw [LbrNowArray, LsrNowArray, if_neg (by simp), LsrNowArrayPre,
        consRow_mk_succ]
      linarith [hb.2]
    · rw [LbrNowArray, LsrNowArray, if_neg (by simp), LsrNowArrayPre,
        consRow_mk_succ]
      linarith [hb.1]

theorem C5_gridpoint_bounds_witness :
    0 ≤ cNowArray Pstar vPstar r2 jt1 ∧ 0 ≤ LbrNowArray Pstar vPstar r2 jt1 ∧
      LbrNowArray Pstar vPstar r2 jt1 ≤ 1 :=
  C5_gridpoint_bounds Pstar vPstar (by norm_num [Pstar]) (by norm_num [Pstar])
    (fun j => by
      rw [Pstar_TranShkGrid]
      split <;> norm_num)
    (fun i => by
      rw [EndOfPrdvP_star]
      split <;> norm_num)
    r2 jt1

/-! ## Monotonicity at the constructed gridpoints

The consumption values the solver constructs along one shock column are
driven by the end-of-period marginal value through two competing formulas:
the interior effective-consumption solution and, where the labor constraint
binds, the corner solution.  The lemmas below isolate the power-function
algebra: the scale factor collapses to `(t/α)^(α·frac)` for `t = wage*θ`,
and at the clamp boundary the interior and corner consumption formulas
agree, which makes the mixed comparisons go through. -/

theorem scale_factor_eq (a t f : ℝ) (ha : 0 < a) (ht : 0 < t)
    (hffa : f * (1 + a) = 1) :
    f * t ^ (a * f) * (a ^ (-a * f) + a ^ f) = (t / a) ^ (a * f) := by
  have hane : a ^ (a * f) ≠ 0 := ne_of_gt (Real.rpow_pos_of_pos ha _)
  have hpow : a ^ (a * f) * a ^ f = a := by
    rw [← Real.rpow_add ha]
    have h1 : a * f + f = 1 := by
      have h2 : a * f + f = f * (1 + a) := by ring
      rw [h2, hffa]
    rw [h1, Real.rpow_one]
  rw [Real.div_rpow ht.le ha.le, show -a * f = -(a * f) by ring,
    Real.rpow_neg ha.le]
  have hkey : (a ^ (a * f))⁻¹ + a ^ f = (a ^ (a * f))⁻¹ * (1 + a) := by
    field_simp
    linear_combination hpow
  calc f * t ^ (a * f) * ((a ^ (a * f))⁻¹ + a ^ f)
      = f * t ^ (a * f) * ((a ^ (a * f))⁻¹ * (1 + a)) := by rw [hkey]
    _ = t ^ (a * f) * (a ^ (a * f))⁻¹ * (f * (1 + a)) := by ring
    _ = t ^ (a * f) * (a ^ (a * f))⁻¹ := by rw [hffa, mul_one]
    _ = t ^ (a * f) / a ^ (a * f) := by rw [div_eq_mul_inv]

theorem xP_collapse (E s d f : ℝ) (h : 0 ≤ E * s) :
    ((E * s) ^ (-1 / d)) ^ f = (E * s) ^ (-(f / d)) := by
  rw [← Real.rpow_mul h]
  congr 1
  ring

/-- At a clamp boundary the corner consumption dominates the interior one:
if leisure is within bound at end-of-period marginal value `E` and out of
bound at `E2`, then the interior consumption at `E` is at most the corner
consumption at `E2`.  No comparison between `E` and `E2` is needed. -/
theorem corner_dominates (a t g f d E E2 s : ℝ) (ha : 0 < a) (ht : 0 < t)
    (hffa : f * (1 + a) = 1) (hf0 : 0 < f) (hg0 : 0 < g) (hd0 : 0 < d)
    (hd : d = g - a * f) (hs : s = (t / a) ^ (a * f)) (hE : 0 < E)
    (hE2 : 0 < E2)
    (hL : (a / t) ^ f * (E * s) ^ (-(f / d)) ≤ 1)
    (hL2 : 1 < (a / t) ^ f * (E2 * s) ^ (-(f / d))) :
    (t / a) ^ (a * f) * (E * s) ^ (-(f / d)) ≤ E2 ^ (-1 / g) := by
  have hτ : 0 < t / a := div_pos ht ha
  have hτf : 0 < (t / a) ^ f := Real.rpow_pos_of_pos hτ f
  have hs0 : 0 < s := by
    rw [hs]
    exact Real.rpow_pos_of_pos hτ _
  have hA : (a / t) ^ f = ((t / a) ^ f)⁻¹ := by
    rw [← Real.inv_rpow hτ.le, inv_div]
  have hafsum : a * f + f = 1 := by
    have h2 : a * f + f = f * (1 + a) := by ring
    rw [h2, hffa]
  have h1 : (E * s) ^ (-(f / d)) ≤ (t / a) ^ f := by
    rw [hA] at hL
    calc (E * s) ^ (-(f / d))
        = (t / a) ^ f * (((t / a) ^ f)⁻¹ * (E * s) ^ (-(f / d))) := by
          field_simp
      _ ≤ (t / a) ^ f * 1 := mul_le_mul_of_nonneg_left hL hτf.le
      _ = (t / a) ^ f := mul_one _
  have h2 : (t / a) ^ (a * f) * (E * s) ^ (-(f / d)) ≤ t / a := by
    calc (t / a) ^ (a * f) * (E * s) ^ (-(f / d))
        ≤ (t / a) ^ (a * f) * (t / a) ^ f :=
          mul_le_mul_of_nonneg_left h1 (Real.rpow_pos_of_pos hτ _).le
      _ = (t / a) ^ (a * f + f) := (Real.rpow_add hτ _ _).symm
      _ = (t / a) ^ (1 : ℝ) := by rw [hafsum]
      _ = t / a := Real.rpow_one _
  have h3 : (t / a) ^ f < (E2 * s) ^ (-(f / d)) := by
    rw [hA] at hL2
    by_contra hcon
    push_neg at hcon
    have hle : ((t / a) ^ f)⁻¹ * (E2 * s) ^ (-(f / d)) ≤ 1 := by
      calc ((t / a) ^ f)⁻¹ * (E2 * s) ^ (-(f / d))
          ≤ ((t / a) ^ f)⁻¹ * (t / a) ^ f :=
            mul_le_mul_of_nonneg_left hcon (inv_nonneg.mpr hτf.le)
        _ = 1 := inv_mul_cancel₀ hτf.ne'
    linarith
  have hq0 : 0 < d / (f * g) := div_pos hd0 (mul_pos hf0 hg0)
  have h4 : ((E2 * s) ^ (-(f / d))) ^ (d / (f * g)) = (E2 * s) ^ (-1 / g) := by
    rw [← Real.rpow_mul (mul_pos hE2 hs0).le]
    congr 1
    field_simp
    ring
  have h5 : ((t / a) ^ f) ^ (d / (f * g)) < (E2 * s) ^ (-1 / g) := by
    rw [← h4]
    exact Real.rpow_lt_rpow hτf.le h3 hq0
  have hsplit : (E2 * s) ^ (-1 / g) = E2 ^ (-1 / g) * s ^ (-1 / g) :=
    Real.mul_rpow hE2.le hs0.le
  have hsg : 0 < s ^ (1 / g) := Real.rpow_pos_of_pos hs0 _
  have hcancel : s ^ (-1 / g) * s ^ (1 / g) = 1 := by
    rw [← Real.rpow_add hs0, show (-1 / g + 1 / g : ℝ) = 0 by ring,
      Real.rpow_zero]
  have h6 : ((t / a) ^ f) ^ (d / (f * g)) * s ^ (1 / g) = t / a := by
    rw [← Real.rpow_mul hτ.le, hs, ← Real.rpow_mul hτ.le, ← Real.rpow_add hτ]
    have hexp : f * (d / (f * g)) + a * f * (1 / g) = 1 := by
      rw [hd]
      field_simp
      ring
    rw [hexp, Real.rpow_one]
  have h7 : t / a < E2 ^ (-1 / g) := by
    have hmul := mul_lt_mul_of_pos_right h5 hsg
    rw [h6, hsplit, mul_assoc, hcancel, mul_one] at hmul
    exact hmul
  linarith

theorem Pstar_aXtraGrid (i : Fin Pstar.aXtraCount) :
    Pstar.aXtraGrid i = if i.val = 0 then 1 else 2 := rfl

/-- C8 amended: along each shock column, for positive labor cost and wage,
positive off-column-0 shock nodes, well-posed risk aversion
`CRRA > LbrCost * frac`, and positive non-increasing end-of-period marginal
values, the constructed consumption gridpoint values are non-decreasing in
the asset grid index (hence in the constructed bank balances, which are
also non-decreasing, as proved here too), leisure is non-decreasing, and
the marginal value at the gridpoints is non-INCREASING -- not
non-decreasing as the claim states (see the counterexample): marginal
value falls as bank balances rise, by concavity. -/
theorem C8_gridpoint_monotone (P : LaborSolverInput) (vPn : ℝ → ℝ → ℝ)
    (hα : 0 < P.LbrCost) (hw : 0 < P.WageRte)
    (hγ : P.LbrCost * frac P < P.CRRA)
    (hθ : ∀ j : Fin P.TranShkCount, 0 ≤ P.TranShkGrid j)
    (hθpos : ∀ j : Fin P.TranShkCount, j.val ≠ 0 → 0 < P.TranShkGrid j)
    (hE : ∀ i : Fin P.aXtraCount, 0 < EndOfPrdvP P vPn i)
    (hEanti : ∀ i i' : Fin P.aXtraCount, i ≤ i' →
      EndOfPrdvP P vPn i' ≤ EndOfPrdvP P vPn i)
    (haX : ∀ i i' : Fin P.aXtraCount, i ≤ i' → P.aXtraGrid i ≤ P.aXtraGrid i')
    (i i' : Fin P.aXtraCount) (hii : i ≤ i') (j : Fin P.TranShkCount) :
    cNrmNow P vPn i j ≤ cNrmNow P vPn i' j ∧
    LsrNow P vPn i j ≤ LsrNow P vPn i' j ∧
    bNrmNow P vPn i j ≤ bNrmNow P vPn i' j ∧
    CRRAutilityP (vPnvrsNow P vPn i' j) P.CRRA ≤
      CRRAutilityP (vPnvrsNow P vPn i j) P.CRRA := by
  have h1a : (0 : ℝ) < 1 + P.LbrCost := by linarith
  have hf0 : 0 < frac P := by
    rw [frac]
    positivity
  have hγ0 : 0 < P.CRRA := lt_trans (mul_pos hα hf0) hγ
  have hd0 : 0 < P.CRRA - P.LbrCost * frac P := by linarith
  have huPinv_anti : ∀ X Y : ℝ, 0 < Y → Y ≤ X → uPinv P X ≤ uPinv P Y := by
    intro X Y hY hYX
    rw [uPinv, uPinv, CRRAutilityP_inv, CRRAutilityP_inv,
      show (-1 / P.CRRA : ℝ) = -(1 / P.CRRA) by ring]
    exact rpow_anti hY hYX (by positivity)
  have hvP : ∀ ii : Fin P.aXtraCount,
      CRRAutilityP (vPnvrsNow P vPn ii j) P.CRRA = EndOfPrdvP P vPn ii := by
    intro ii
    rw [vPnvrsNow, uPinv, CRRAutilityP_inv, CRRAutilityP,
      ← Real.rpow_mul (hE ii).le,
      show (-1 / P.CRRA * -P.CRRA : ℝ) = 1 by field_simp, Real.rpow_one]
  have hvPmono : CRRAutilityP (vPnvrsNow P vPn i' j) P.CRRA ≤
      CRRAutilityP (vPnvrsNow P vPn i j) P.CRRA := by
    rw [hvP, hvP]
    exact hEanti i i' hii
  have hbfrom : cNrmNow P vPn i j ≤ cNrmNow P vPn i' j →
      LsrNow P vPn i j ≤ LsrNow P vPn i' j →
      bNrmNow P vPn i j ≤ bNrmNow P vPn i' j := by
    intro hc hL
    rw [bNrmNow, bNrmNow]
    have h3 := mul_le_mul_of_nonneg_left hL (mul_nonneg hw.le (hθ j))
    have h4 := haX i i' hii
    linarith
  by_cases hj : j.val = 0
  · have hcol : ∀ ii : Fin P.aXtraCount,
        cNrmNow P vPn ii j = uPinv P (EndOfPrdvP P vPn ii) ∧
        LsrNow P vPn ii j = 1 := by
      intro ii
      have hs1 : LsrNowShk0 P vPn ii j = 1 := by rw [LsrNowShk0, if_pos hj]
      have hnc : ¬(1 < LsrNowShk0 P vPn ii j) := by
        rw [hs1]
        exact lt_irrefl 1
      exact ⟨by rw [cNrmNow, if_neg hnc, cNrmNowShk0, if_pos hj],
        by rw [LsrNow, if_neg hnc, hs1]⟩
    have hc : cNrmNow P vPn i j ≤ cNrmNow P vPn i' j := by
      rw [(hcol i).1, (hcol i').1]
      exact huPinv_anti _ _ (hE i') (hEanti i i' hii)
    have hL : LsrNow P vPn i j ≤ LsrNow P vPn i' j := by
      rw [(hcol i).2, (hcol i').2]
    exact ⟨hc, hL, hbfrom hc hL, hvPmono⟩
  · have ht : 0 < P.WageRte * P.TranShkGrid j := mul_pos hw (hθpos j hj)
    have hffa : frac P * (1 + P.LbrCost) = 1 := by
      rw [frac]
      field_simp
    have hs_eq : TranShkScaleFac P j =
        (P.WageRte * P.TranShkGrid j / P.LbrCost) ^ (P.LbrCost * frac P) := by
      rw [TranShkScaleFac]
      exact scale_factor_eq P.LbrCost (P.WageRte * P.TranShkGrid j) (frac P)
        hα ht hffa
    have hs0 : 0 < TranShkScaleFac P j := by
      rw [hs_eq]
      exact Real.rpow_pos_of_pos (div_pos ht hα) _
    have hxP : ∀ ii : Fin P.aXtraCount, xNowPowered P vPn ii j =
        (EndOfPrdvP P vPn ii * TranShkScaleFac P j) ^
          (-(frac P / (P.CRRA - P.LbrCost * frac P))) := by
      intro ii
      rw [xNowPowered, xNowArray]
      exact xP_collapse _ _ _ _ (mul_nonneg (hE ii).le hs0.le)
    have hLshape : ∀ ii : Fin P.aXtraCount, LsrNowShk0 P vPn ii j =
        (P.LbrCost / (P.WageRte * P.TranShkGrid j)) ^ frac P *
          (EndOfPrdvP P vPn ii * TranShkScaleFac P j) ^
            (-(frac P / (P.CRRA - P.LbrCost * frac P))) := by
      intro ii
      rw [LsrNowShk0, if_neg hj, LsrNowFOC, hxP]
    have hcshape : ∀ ii : Fin P.aXtraCount, cNrmNowShk0 P vPn ii j =
        (P.WageRte * P.TranShkGrid j / P.LbrCost) ^ (P.LbrCost * frac P) *
          (EndOfPrdvP P vPn ii * TranShkScaleFac P j) ^
            (-(frac P / (P.CRRA - P.LbrCost * frac P))) := by
      intro ii
      rw [cNrmNowShk0, if_neg hj, cNrmNowFOC, hxP]
    have hBanti : (EndOfPrdvP P vPn i * TranShkScaleFac P j) ^
          (-(frac P / (P.CRRA - P.LbrCost * frac P))) ≤
        (EndOfPrdvP P vPn i' * TranShkScaleFac P j) ^
          (-(frac P / (P.CRRA - P.LbrCost * frac P))) :=
      rpow_anti (mul_pos (hE i') hs0)
        (mul_le_mul_of_nonneg_right (hEanti i i' hii) hs0.le)
        (div_nonneg hf0.le hd0.le)
    have hLanti : LsrNowShk0 P vPn i j ≤ LsrNowShk0 P vPn i' j := by
      rw [hLshape, hLshape]
      exact mul_le_mul_of_nonneg_left hBanti
        (Real.rpow_nonneg (div_nonneg hα.le ht.le) _)
    by_cases hci : 1 < LsrNowShk0 P vPn i j
    · have hci' : 1 < LsrNowShk0 P vPn i' j := lt_of_lt_of_le hci hLanti
      have hc : cNrmNow P vPn i j ≤ cNrmNow P vPn i' j := by
        rw [cNrmNow, if_pos hci, cNrmNow, if_pos hci']
        exact huPinv_anti _ _ (hE i') (hEanti i i' hii)
      have hL : LsrNow P vPn i j ≤ LsrNow P vPn i' j := by
        rw [LsrNow, if_pos hci, LsrNow, if_pos hci']
      exact ⟨hc, hL, hbfrom hc hL, hvPmono⟩
    · by_cases hci' : 1 < LsrNowShk0 P vPn i' j
      · have hc : cNrmNow P vPn i j ≤ cNrmNow P vPn i' j := by
          rw [cNrmNow, if_neg hci, cNrmNow, if_pos hci', hcshape i, uPinv,
            CRRAutilityP_inv]
          exact corner_dominates P.LbrCost (P.WageRte * P.TranShkGrid j)
            P.CRRA (frac P) (P.CRRA - P.LbrCost * frac P)
            (EndOfPrdvP P vPn i) (EndOfPrdvP P vPn i')
            (TranShkScaleFac P j) hα ht hffa hf0 hγ0 hd0 rfl hs_eq
            (hE i) (hE i')
            (by rw [← hLshape]; exact not_lt.mp hci)
            (by rw [← hLshape]; exact hci')
        have hL : LsrNow P vPn i j ≤ LsrNow P vPn i' j := by
          rw [LsrNow, if_neg hci, LsrNow, if_pos hci']
          exact not_lt.mp hci
        exact ⟨hc, hL, hbfrom hc hL, hvPmono⟩
      · have hc : cNrmNow P vPn i j ≤ cNrmNow P vPn i' j := by
          rw [cNrmNow, if_neg hci, cNrmNow, if_neg hci', hcshape, hcshape]
          exact mul_le_mul_of_nonneg_left hBanti
            (Real.rpow_nonneg (div_nonneg ht.le hα.le) _)
        have hL : LsrNow P vPn i j ≤ LsrNow P vPn i' j := by
          rw [LsrNow, if_neg hci, LsrNow, if_neg hci']
          exact hLanti
        exact ⟨hc, hL, hbfrom hc hL, hvPmono⟩

theorem C8_gridpoint_monotone_witness :
    cNrmNow Pstar vPstar ia0 jt1 ≤ cNrmNow Pstar vPstar ia1 jt1 ∧
    LsrNow Pstar vPstar ia0 jt1 ≤ LsrNow Pstar vPstar ia1 jt1 ∧
    bNrmNow Pstar vPstar ia0 jt1 ≤ bNrmNow Pstar vPstar ia1 jt1 ∧
    CRRAutilityP (vPnvrsNow Pstar vPstar ia1 jt1) Pstar.CRRA ≤
      CRRAutilityP (vPnvrsNow Pstar vPstar ia0 jt1) Pstar.CRRA :=
  C8_gridpoint_monotone Pstar vPstar (by norm_num [Pstar]) (by norm_num [Pstar])
    (by rw [frac_star]; norm_num [Pstar])
    (fun j => by
      rw [Pstar_TranShkGrid]
      split <;> norm_num)
    (fun j hj => by
      rw [Pstar_TranShkGrid, if_neg hj]
      norm_num)
    (fun i => by
      rw [EndOfPrdvP_star]
      split <;> norm_num)
    (fun i i' h => by
      rw [EndOfPrdvP_star, EndOfPrdvP_star]
      have hv : i.val ≤ i'.val := h
      by_cases h0 : i.val = 0
      · by_cases h1 : i'.val = 0 <;> simp [h0, h1] <;> norm_num
      · have h1 : i'.val ≠ 0 := by omega
        simp [h0, h1])
    (fun i i' h => by
      rw [Pstar_aXtraGrid, Pstar_aXtraGrid]
      have hv : i.val ≤ i'.val := h
      by_cases h0 : i.val = 0
      · by_cases h1 : i'.val = 0 <;> simp [h0, h1] <;> norm_num
      · have h1 : i'.val ≠ 0 := by omega
        simp [h0, h1])
    ia0 ia1 (by norm_num [Fin.le_def, ia0, ia1]) jt1

end ConsLabor

end
